import Mathlib

/-!
A verification development for the kandinsky SVG value encoder (`types.go`).

The Go source is shallowly embedded: `reflect` values become the inductive
`Value`, the runtime kinds become `Kind`, every encoder function of
`types.go` becomes a Lean function of the same name, `float64` arithmetic is
modelled exactly over `ℚ` (every quantity the encoders compute is obtained
from the document size by `+`, `-`, `*`, `/`, so for the sizes the library is
used with the float computation is exact), and the drawing side effects on
the gosvg canvas become an explicitly returned list of `Elem` values.  A Go
`panic` is modelled as the distinguished outcome `Outcome.panicked`, which is
different from an error return.
-/

namespace Kandinsky

/-- Runtime shape categories, mirroring `reflect.Kind` for the kinds that can
reach `newTypeEncoder` in this code base. -/
inductive Kind where
  | kInvalid
  | kInt
  | kInt8
  | kInt16
  | kInt32
  | kInt64
  | kUint
  | kUint8
  | kUint16
  | kUint32
  | kUint64
  | kUintptr
  | kFloat32
  | kFloat64
  | kBool
  | kString
  | kStruct
  | kSlice
  | kMap
  | kInterface
  | kPtr
  | kChan
  | kFunc
  deriving DecidableEq, Repr

/-- The signed integer kinds (`int`, `int8` … `int64`); all of them dispatch
to `intEncoder` and are read with `v.Int()`. -/
inductive SKind where
  | i
  | i8
  | i16
  | i32
  | i64
  deriving DecidableEq, Repr

def SKind.kind : SKind → Kind
  | .i => .kInt
  | .i8 => .kInt8
  | .i16 => .kInt16
  | .i32 => .kInt32
  | .i64 => .kInt64

/-- The unsigned integer kinds other than `uint8` (`uint`, `uint16`, `uint32`,
`uint64`, `uintptr`); none of them appears in the `newTypeEncoder` switch. -/
inductive UKind where
  | u
  | u16
  | u32
  | u64
  | uptr
  deriving DecidableEq, Repr

def UKind.kind : UKind → Kind
  | .u => .kUint
  | .u16 => .kUint16
  | .u32 => .kUint32
  | .u64 => .kUint64
  | .uptr => .kUintptr

/-- A `reflect.Value` as seen by the encoder.  `invalid` is the zero
`reflect.Value` (`IsValid()` false); a nil pointer is `ptrv invalid` because
`v.Elem()` of a nil pointer is invalid, and a nil `interface` value is
`ifacev invalid` for the same reason.  Struct fields carry their exportedness
flag together with the field value, in declaration order.  Map entries are
listed in iteration order. -/
inductive Value where
  | invalid
  | intv (w : SKind) (n : Int)
  | bytev (n : Nat)
  | uintv (w : UKind) (n : Nat)
  | floatv (q : ℚ)
  | boolv (b : Bool)
  | strv (s : List Nat)
  | structv (fields : List (Bool × Value))
  | slicev (elems : List Value)
  | mapv (entries : List (Value × Value))
  | ifacev (elem : Value)
  | ptrv (elem : Value)
  | funcv
  | chanv

/-- `v.Type().Kind()`.  (`kind` of `invalid` is never consulted:
`valueEncoder` checks `IsValid` first.) -/
def Value.kind : Value → Kind
  | .invalid => .kInvalid
  | .intv w _ => w.kind
  | .bytev _ => .kUint8
  | .uintv w _ => w.kind
  | .floatv _ => .kFloat64
  | .boolv _ => .kBool
  | .strv _ => .kString
  | .structv _ => .kStruct
  | .slicev _ => .kSlice
  | .mapv _ => .kMap
  | .ifacev _ => .kInterface
  | .ptrv _ => .kPtr
  | .funcv => .kFunc
  | .chanv => .kChan

/-- The failure values of the package: `UnsupportedTypeError` (carrying the
offending type), `InvalidValueError`, and the `invalid marshal size` error of
`Marshal`.  `outOfFuel` is an artifact of the fuel-indexed embedding of the
recursion; it is never produced when the fuel is at least `vsize v`
(see `marshalF_fuel`). -/
inductive EncError where
  | unsupportedType (k : Kind)
  | invalidValue
  | invalidSize
  | outOfFuel
  deriving DecidableEq, Repr

/-- The ten `encoderFunc` values `newTypeEncoder` can bind. -/
inductive Strategy where
  | intEnc
  | byteEnc
  | floatEnc
  | boolEnc
  | stringEnc
  | structEnc
  | sliceEnc
  | mapEnc
  | ifaceEnc
  | ptrEnc
  deriving DecidableEq, Repr

/-- Result of running a piece of the encoder: a normal return carrying the
elements drawn, an error return, or a Go `panic` (abnormal termination). -/
inductive Outcome (α : Type) where
  | ok (a : α)
  | err (e : EncError)
  | panicked (e : EncError)

def Outcome.isOk {α : Type} : Outcome α → Bool
  | .ok _ => true
  | _ => false

/-- `newTypeEncoder` (types.go): the kind switch binding an encoder strategy;
kinds absent from the switch fall to the default branch and produce
`UnsupportedTypeError`. -/
def newTypeEncoder (t : Kind) : Except EncError Strategy :=
  match t with
  | .kInt | .kInt8 | .kInt16 | .kInt32 | .kInt64 => .ok .intEnc
  | .kUint8 => .ok .byteEnc
  | .kFloat32 | .kFloat64 => .ok .floatEnc
  | .kBool => .ok .boolEnc
  | .kString => .ok .stringEnc
  | .kStruct => .ok .structEnc
  | .kSlice => .ok .sliceEnc
  | .kMap => .ok .mapEnc
  | .kInterface => .ok .ifaceEnc
  | .kPtr => .ok .ptrEnc
  | t => .error (.unsupportedType t)

/-- `typeEncoder` (types.go): the cache around `newTypeEncoder`.  The cache
only memoizes the pure function `newTypeEncoder` (errors are never cached),
so semantically it is the identity wrapper. -/
def typeEncoder (t : Kind) : Except EncError Strategy := newTypeEncoder t

/-- `valueEncoder` (types.go).  On an invalid value the code executes
`panic(InvalidValueError)`; the `return nil, InvalidValueError` on the next
line is unreachable.  The panic is modelled as `Outcome.panicked`. -/
def valueEncoder (v : Value) : Outcome Strategy :=
  match v with
  | .invalid => .panicked .invalidValue
  | v =>
    match typeEncoder v.kind with
    | .ok f => .ok f
    | .error e => .err e

/-- A drawing element appended to the gosvg canvas.  `rect` and `polygon`
carry their fill color (their stroke-width is always set to 0); `circle`
has its fill and stroke set to the same color, recorded once.  `group` is a
nested group with a translate-then-scale transform (both scale components of
the code are always equal). -/
inductive Elem where
  | rect (x y w h : ℚ) (fill : String)
  | circle (cx cy r : ℚ) (fill : String)
  | polygon (p1 p2 p3 : ℚ × ℚ) (fill : String)
  | group (tx ty sc : ℚ) (children : List Elem)

/-- The values taken by the loop variable of the Go pattern
`for y := sz - step; y > 0; y -= step`: the j-th iteration (j = 0, 1, …)
runs with `y = sz - (j+1)*step`, and the loop stops at the first candidate
that is not `> 0`.  `n` bounds the number of candidates inspected; the
encoders use `step = sz/8` and `n = 8`, and the 8th candidate is exactly
`sz - 8*(sz/8) = 0`, so the bound is never the reason the loop stops. -/
def loopVals (sz step : ℚ) (n : Nat) : List ℚ :=
  ((List.range n).map (fun j => sz - ((j : ℚ) + 1) * step)).takeWhile
    (fun y => decide (0 < y))

/-- The bit-consuming loop body shared by `intEncoder` and `byteEncoder`:
for each visited cell, emit it if the low bit of the remaining value is set,
then shift; return as soon as the shifted value is zero (the check sits after
the shift, exactly as in the code). -/
def bitCells {α : Type} : List α → Nat → List α
  | [], _ => []
  | c :: rest, val =>
    let drawn := if val % 2 = 1 then [c] else []
    if val / 2 = 0 then drawn else drawn ++ bitCells rest (val / 2)

/-- Cell traversal order of `intEncoder`: outer loop over `y` from the bottom
row upwards, inner loop over `x` from the right column leftwards. -/
def intGrid (sz cellSz : ℚ) : List (ℚ × ℚ) :=
  (loopVals sz cellSz 8).flatMap (fun y => (loopVals sz cellSz 8).map (fun x => (x, y)))

/-- `intEncoder` (types.go): 8x8-bit-matrix rendering of `int(v.Int())`.
The machine integer is modelled as an unbounded `Int` (no 64-bit wrap). -/
def intEncoder (sz : ℚ) (i : Int) : List Elem :=
  let color := if i ≤ 0 then "red" else "black"
  let aval := (if i ≤ 0 then -i else i).toNat
  let factor : ℚ := 1 / 10
  let cellSz := sz / 8
  let blkSz := cellSz * (1 - factor)
  let margin := cellSz * (factor / 2)
  (bitCells (intGrid sz cellSz) aval).map
    (fun c => .rect (c.1 + margin) (c.2 - margin) blkSz blkSz color)

/-- `byteEncoder` (types.go): up-to-8 stacked bars for `v.Uint()` of a
`uint8` value. -/
def byteEncoder (sz : ℚ) (val : Nat) : List Elem :=
  let h := sz / 8
  let factor : ℚ := 1 / 5
  let blkH := h * (1 - factor)
  let margin := h * (factor / 2)
  (bitCells (loopVals sz h 8) val).map
    (fun y => .rect margin (y - margin) (sz - margin) blkH "black")

/-- `floatEncoder` (types.go): one circle at the region center; the sign test
`val <= 0` runs after the multiplication by `sz/2`. -/
def floatEncoder (sz : ℚ) (v : ℚ) : List Elem :=
  let val := v * (sz / 2)
  let fill := if val ≤ 0 then "red" else "black"
  let r := if val ≤ 0 then -val else val
  [.circle (sz / 2) (sz / 2) r fill]

/-- `boolEncoder` (types.go): one triangle, apex up and black for true, apex
down and red for false (`hi` and `lo` are swapped for false). -/
def boolEncoder (sz : ℚ) (val : Bool) : List Elem :=
  let factor : ℚ := 1 / 4
  let factorD2 := factor / 2
  let h := sz * (1 - factor)
  let sinY := (433 / 500 : ℚ) * h
  let x1 := sz * factorD2
  let x2 := sz / 2
  let x3 := sz * (1 - factorD2)
  let hi := if val then x1 else sinY + x1
  let lo := if val then sinY + x1 else x1
  let color := if val then "black" else "red"
  [.polygon (x1, lo) (x2, hi) (x3, lo) color]

/-- `int(math.Ceil(math.Sqrt(float64(n))))` for `n ≥ 1`: the least `w` with
`n ≤ w*w` (proved in `gridWidth_spec`). -/
def gridWidth (n : Nat) : Nat := Nat.sqrt (n - 1) + 1

/-- The child loop shared by `structEncoder` and `sliceEncoder`: for each
child result in order, wrap it in a group translated by `(x*cellSz, y*cellSz)`
and scaled by `cellPt`, advancing `x` and wrapping to the next row when `x`
reaches `width`; stop and propagate on the first error. -/
def gridCells (cellSz cellPt : ℚ) (width : Nat) :
    Nat → Nat → List (Outcome (List Elem)) → Outcome (List Elem)
  | _, _, [] => .ok []
  | x, y, r :: rest =>
    match r with
    | .ok inner =>
      let cell := Elem.group ((x : ℚ) * cellSz) ((y : ℚ) * cellSz) cellPt inner
      let next :=
        if x + 1 = width then gridCells cellSz cellPt width 0 (y + 1) rest
        else gridCells cellSz cellPt width (x + 1) y rest
      match next with
      | .ok cells => .ok (cell :: cells)
      | .err e => .err e
      | .panicked e => .panicked e
    | .err e => .err e
    | .panicked e => .panicked e

/-- The `kvPair` struct of `mapEncoder`: four unexported `interface` fields. -/
structure KVPair where
  k1 : Value
  v1 : Value
  k2 : Value
  v2 : Value

/-- The Go zero value `var p kvPair`: four nil interface fields. -/
def KVPair.empty : KVPair := ⟨.invalid, .invalid, .invalid, .invalid⟩

/-- The pairing loop of `mapEncoder`, exactly as written: entries land
alternately in the first and second slot of the running pair `p`; a pair is
appended when its second slot is filled, and after the loop `p` is appended
once more when `isOdd` is false (the code really tests `!isOdd`). -/
def buildKVPairs : List (Value × Value) → KVPair → Bool → List KVPair
  | [], p, isOdd => if !isOdd then [p] else []
  | (k, v) :: rest, p, isOdd =>
    if !isOdd then
      buildKVPairs rest ⟨k, v, p.k2, p.v2⟩ true
    else
      ⟨p.k1, p.v1, k, v⟩ :: buildKVPairs rest ⟨p.k1, p.v1, k, v⟩ false

/-- The value a `kvPair` presents to the walker when `sliceEncoder` reaches
it: a struct of four unexported fields of interface kind, each wrapping the
stored dynamic value. -/
def pairVal (p : KVPair) : Value :=
  .structv [(false, .ifacev p.k1), (false, .ifacev p.v1),
            (false, .ifacev p.k2), (false, .ifacev p.v2)]

mutual

/-- A size measure on values used as recursion fuel.  It strictly dominates
the size of every value the recursion is re-entered on, including the
synthetic byte slice built by `stringEncoder` and the synthetic `kvPair`
records built by `mapEncoder` (see `vsize_pairVal_lt`). -/
def vsize : Value → Nat
  | .invalid => 1
  | .intv _ _ => 1
  | .bytev _ => 1
  | .uintv _ _ => 1
  | .floatv _ => 1
  | .boolv _ => 1
  | .strv s => s.length + 2
  | .structv fs => fsize fs + 1
  | .slicev es => lsize es + 1
  | .mapv es => psize es + 10
  | .ifacev x => vsize x + 1
  | .ptrv x => vsize x + 1
  | .funcv => 1
  | .chanv => 1

def lsize : List Value → Nat
  | [] => 0
  | v :: vs => vsize v + lsize vs

def fsize : List (Bool × Value) → Nat
  | [] => 0
  | (_, v) :: fs => vsize v + fsize fs

def psize : List (Value × Value) → Nat
  | [] => 0
  | (k, v) :: es => (vsize k + vsize v) + psize es

end

/-- The recursive Value Walker `encodeState.marshal` together with the bodies
of the composite encoders, indexed by fuel to make the recursion structural.
The dispatch performed by `valueEncoder`/`newTypeEncoder` is inlined: each
branch is the body of the `encoderFunc` that `newTypeEncoder` binds for the
value's kind (an invalid value hits the `panic` in `valueEncoder`, and a kind
outside the switch returns `UnsupportedTypeError`).  `marshal` instantiates
the fuel with `vsize v`, which is always sufficient (`marshalF_fuel`), so the
`outOfFuel` branch is unreachable from `marshal`. -/
def marshalF : Nat → Value → ℚ → Outcome (List Elem)
  | 0, _, _ => .err .outOfFuel
  | n + 1, v, sz =>
    match v with
    | .invalid => .panicked .invalidValue
    | .intv _ i => .ok (intEncoder sz i)
    | .bytev b => .ok (byteEncoder sz b)
    | .uintv w _ => .err (.unsupportedType w.kind)
    | .floatv q => .ok (floatEncoder sz q)
    | .boolv b => .ok (boolEncoder sz b)
    | .strv s => marshalF n (.slicev (s.map Value.bytev)) sz
    | .structv fs =>
      if fs.length = 0 then .ok []
      else
        let width := gridWidth fs.length
        match gridCells (sz / (width : ℚ)) (1 / (width : ℚ)) width 0 0
            (fs.map (fun f => marshalF n f.2 sz)) with
        | .ok cells => .ok [.group 0 0 1 cells]
        | .err e => .err e
        | .panicked e => .panicked e
    | .slicev es =>
      if es.length = 0 then .ok []
      else
        let width := gridWidth es.length
        match gridCells (sz / (width : ℚ)) (1 / (width : ℚ)) width 0 0
            (es.map (fun c => marshalF n c sz)) with
        | .ok cells => .ok [.group 0 0 1 cells]
        | .err e => .err e
        | .panicked e => .panicked e
    | .mapv entries =>
      if entries.length = 0 then .ok []
      else
        let pairs := buildKVPairs entries KVPair.empty false
        if pairs.length = 0 then .ok []
        else
          let width := gridWidth pairs.length
          match gridCells (sz / (width : ℚ)) (1 / (width : ℚ)) width 0 0
              (pairs.map (fun p => marshalF n (pairVal p) sz)) with
          | .ok cells => .ok [.group 0 0 1 cells]
          | .err e => .err e
          | .panicked e => .panicked e
    | .ifacev x => marshalF n x sz
    | .ptrv x =>
      match x with
      | .invalid => .ok []
      | x => marshalF n x sz
    | .funcv => .err (.unsupportedType .kFunc)
    | .chanv => .err (.unsupportedType .kChan)

/-- `encodeState.marshal`: the Value Walker at its canonical fuel. -/
def marshal (v : Value) (sz : ℚ) : Outcome (List Elem) := marshalF (vsize v) v sz

mutual

/-- Serialization of one canvas element, standing in for the gosvg renderer. -/
def renderElem : Elem → String
  | .rect x y w h f =>
    "<rect x=" ++ toString x ++ " y=" ++ toString y ++ " width=" ++ toString w ++
      " height=" ++ toString h ++ " fill=" ++ f ++ "/>"
  | .circle cx cy r f =>
    "<circle cx=" ++ toString cx ++ " cy=" ++ toString cy ++ " r=" ++ toString r ++
      " fill=" ++ f ++ "/>"
  | .polygon p1 p2 p3 f =>
    "<polygon points=" ++ toString p1.1 ++ "," ++ toString p1.2 ++ " " ++
      toString p2.1 ++ "," ++ toString p2.2 ++ " " ++
      toString p3.1 ++ "," ++ toString p3.2 ++ " fill=" ++ f ++ "/>"
  | .group tx ty sc cs =>
    "<g transform=translate(" ++ toString tx ++ "," ++ toString ty ++ ") scale(" ++
      toString sc ++ ")>" ++ renderList cs ++ "</g>"

def renderList : List Elem → String
  | [] => ""
  | e :: es => renderElem e ++ renderList es

end

/-- The SVG document built by `Marshal`: a `size` by `size` root holding one
top-level group (`s.Group()`). -/
structure SVGDoc where
  width : ℚ
  height : ℚ
  content : List Elem

/-- `s.Render(&b)`: serialize the whole document. -/
def render (d : SVGDoc) : String :=
  "<svg width=" ++ toString d.width ++ " height=" ++ toString d.height ++ ">" ++
    renderList d.content ++ "</svg>"

/-- `Marshal` (types.go): reject a non-positive size before any work, then
run the walker on a fresh document-sized canvas and serialize on success;
on an error nothing is returned besides the error, and a panic propagates. -/
def Marshal (v : Value) (size : ℚ) : Outcome String :=
  if size ≤ 0 then .err .invalidSize
  else
    match marshal v size with
    | .ok elems => .ok (render ⟨size, size, [.group 0 0 1 elems]⟩)
    | .err e => .err e
    | .panicked e => .panicked e

/-- The elements a successfully encoded child contributes (helper for
stating closed forms; an erroring child never reaches the point where its
elements matter). -/
def childElems (v : Value) (sz : ℚ) : List Elem :=
  match marshal v sz with
  | .ok es => es
  | _ => []

/-- Closed form of the grid cell list produced by `gridCells` when every
child succeeds: the child at overall index `i + j` (j-th of `ls`) sits in a
group translated by `((i+j) % w * cellSz, (i+j) / w * cellSz)` and scaled by
`cellPt`. -/
def gridSpec (cellSz cellPt : ℚ) (w : Nat) : Nat → List (List Elem) → List Elem
  | _, [] => []
  | i, es :: rest =>
    Elem.group ((i % w : ℕ) * cellSz) ((i / w : ℕ) * cellSz) cellPt es ::
      gridSpec cellSz cellPt w (i + 1) rest

theorem vsize_pos (v : Value) : 0 < vsize v := by
  cases v <;> simp [vsize]

theorem lsize_le_of_mem {v : Value} {es : List Value} (h : v ∈ es) :
    vsize v ≤ lsize es := by
  induction es with
  | nil => cases h
  | cons e es ih =>
    rcases List.mem_cons.mp h with h | h
    · subst h; simp [lsize]
    · have := ih h; simp [lsize]; omega

theorem fsize_le_of_mem {f : Bool × Value} {fs : List (Bool × Value)} (h : f ∈ fs) :
    vsize f.2 ≤ fsize fs := by
  induction fs with
  | nil => cases h
  | cons g fs ih =>
    rcases List.mem_cons.mp h with h | h
    · subst h; obtain ⟨b, v⟩ := f; simp [fsize]
    · have := ih h; obtain ⟨b, v⟩ := g; simp [fsize]; omega

theorem lsize_map_bytev (s : List Nat) : lsize (s.map Value.bytev) = s.length := by
  induction s with
  | nil => simp [lsize]
  | cons b s ih => simp [lsize, vsize, ih]; omega

/-- Total size of the four slots of a running `kvPair`. -/
def KVPair.csize (p : KVPair) : Nat :=
  vsize p.k1 + vsize p.v1 + vsize p.k2 + vsize p.v2

theorem buildKVPairs_csize :
    ∀ (es : List (Value × Value)) (p : KVPair) (b : Bool) (q : KVPair),
      q ∈ buildKVPairs es p b → q.csize ≤ p.csize + psize es := by
  intro es
  induction es with
  | nil =>
    intro p b q hq
    cases b with
    | false => simp [buildKVPairs] at hq; subst hq; simp [psize]
    | true => simp [buildKVPairs] at hq
  | cons e es ih =>
    intro p b q hq
    obtain ⟨k, v⟩ := e
    cases b with
    | false =>
      simp only [buildKVPairs, Bool.not_false, if_pos] at hq
      have := ih ⟨k, v, p.k2, p.v2⟩ true q hq
      simp [KVPair.csize, psize] at this ⊢
      omega
    | true =>
      simp only [buildKVPairs, Bool.not_true, Bool.false_eq_true, if_false,
        List.mem_cons] at hq
      rcases hq with hq | hq
      · subst hq
        simp [KVPair.csize, psize]
        omega
      · have := ih ⟨p.k1, p.v1, k, v⟩ false q hq
        simp [KVPair.csize, psize] at this ⊢
        omega

theorem vsize_pairVal (p : KVPair) : vsize (pairVal p) = p.csize + 5 := by
  simp [pairVal, vsize, fsize, KVPair.csize]
  omega

theorem vsize_pairVal_lt {q : KVPair} {es : List (Value × Value)}
    (h : q ∈ buildKVPairs es KVPair.empty false) :
    vsize (pairVal q) + 1 ≤ vsize (.mapv es) := by
  have hc := buildKVPairs_csize es KVPair.empty false q h
  have : KVPair.empty.csize = 4 := by simp [KVPair.empty, KVPair.csize, vsize]
  rw [vsize_pairVal]
  simp [vsize]
  omega

/-- Fuel irrelevance: any fuel at least `vsize v` computes the same result,
so the fuel in `marshal` is an embedding artifact with no semantic content. -/
theorem marshalF_fuel :
    ∀ (n m : Nat) (v : Value) (sz : ℚ), vsize v ≤ n → vsize v ≤ m →
      marshalF n v sz = marshalF m v sz := by
  intro n
  induction n with
  | zero => intro m v sz hn; exact absurd hn (by have := vsize_pos v; omega)
  | succ n ih =>
    intro m v sz hn hm
    have hv := vsize_pos v
    obtain ⟨m, rfl⟩ : ∃ m', m = m' + 1 := ⟨m - 1, by omega⟩
    cases v with
    | invalid => rfl
    | intv w i => rfl
    | bytev b => rfl
    | uintv w u => rfl
    | floatv q => rfl
    | boolv b => rfl
    | funcv => rfl
    | chanv => rfl
    | strv s =>
      have hsz : vsize (.slicev (s.map Value.bytev)) = s.length + 1 := by
        simp [vsize, lsize_map_bytev]
      have hs : vsize (.strv s) = s.length + 2 := by simp [vsize]
      simp only [marshalF]
      exact ih m (.slicev (s.map Value.bytev)) sz (by omega) (by omega)
    | ifacev x =>
      have : vsize (.ifacev x) = vsize x + 1 := by simp [vsize]
      simp only [marshalF]
      exact ih m x sz (by omega) (by omega)
    | ptrv x =>
      have hx : vsize (Value.ptrv x) = vsize x + 1 := by simp [vsize]
      rw [hx] at hn hm
      cases x <;>
        first
          | rfl
          | (simp only [marshalF]; exact ih m _ sz (by omega) (by omega))
    | structv fs =>
      have hfs : vsize (.structv fs) = fsize fs + 1 := by simp [vsize]
      have hmap : fs.map (fun f => marshalF n f.2 sz) =
          fs.map (fun f => marshalF m f.2 sz) := by
        apply List.map_congr_left
        intro f hf
        have := fsize_le_of_mem hf
        exact ih m f.2 sz (by omega) (by omega)
      simp only [marshalF, hmap]
    | slicev es =>
      have hes : vsize (.slicev es) = lsize es + 1 := by simp [vsize]
      have hmap : es.map (fun c => marshalF n c sz) =
          es.map (fun c => marshalF m c sz) := by
        apply List.map_congr_left
        intro c hc
        have := lsize_le_of_mem hc
        exact ih m c sz (by omega) (by omega)
      simp only [marshalF, hmap]
    | mapv entries =>
      have hes : vsize (.mapv entries) = psize entries + 10 := by simp [vsize]
      have hmap : (buildKVPairs entries KVPair.empty false).map
            (fun p => marshalF n (pairVal p) sz) =
          (buildKVPairs entries KVPair.empty false).map
            (fun p => marshalF m (pairVal p) sz) := by
        apply List.map_congr_left
        intro p hp
        have := vsize_pairVal_lt hp
        exact ih m (pairVal p) sz (by omega) (by omega)
      simp only [marshalF, hmap]

theorem marshal_ifacev (x : Value) (sz : ℚ) : marshal (.ifacev x) sz = marshal x sz := rfl

theorem marshal_ptr_nil (sz : ℚ) : marshal (.ptrv .invalid) sz = .ok [] := rfl

theorem marshal_ptrv {x : Value} (hx : x ≠ .invalid) (sz : ℚ) :
    marshal (.ptrv x) sz = marshal x sz := by
  cases x <;> first | exact absurd rfl hx | rfl

theorem marshal_strv (s : List Nat) (sz : ℚ) :
    marshal (.strv s) sz = marshal (.slicev (s.map Value.bytev)) sz := by
  have h2 : vsize (Value.slicev (s.map Value.bytev)) = s.length + 1 := by
    simp [vsize, lsize_map_bytev]
  show marshalF (s.length + 1) (Value.slicev (s.map Value.bytev)) sz =
    marshalF (vsize (Value.slicev (s.map Value.bytev))) (Value.slicev (s.map Value.bytev)) sz
  exact marshalF_fuel _ _ _ _ (by omega) (by omega)

theorem marshal_structv (fs : List (Bool × Value)) (sz : ℚ) :
    marshal (.structv fs) sz =
      if fs.length = 0 then .ok []
      else
        match gridCells (sz / (gridWidth fs.length : ℚ)) (1 / (gridWidth fs.length : ℚ))
            (gridWidth fs.length) 0 0 (fs.map (fun f => marshal f.2 sz)) with
        | .ok cells => .ok [.group 0 0 1 cells]
        | .err e => .err e
        | .panicked e => .panicked e := by
  have h1 : vsize (Value.structv fs) = fsize fs + 1 := by simp [vsize]
  have hmap : fs.map (fun f => marshalF (fsize fs) f.2 sz) =
      fs.map (fun f => marshal f.2 sz) := by
    apply List.map_congr_left
    intro f hf
    exact marshalF_fuel _ _ _ _ (fsize_le_of_mem hf) le_rfl
  simp only [marshal, h1, marshalF, hmap]

theorem marshal_slicev (es : List Value) (sz : ℚ) :
    marshal (.slicev es) sz =
      if es.length = 0 then .ok []
      else
        match gridCells (sz / (gridWidth es.length : ℚ)) (1 / (gridWidth es.length : ℚ))
            (gridWidth es.length) 0 0 (es.map (fun c => marshal c sz)) with
        | .ok cells => .ok [.group 0 0 1 cells]
        | .err e => .err e
        | .panicked e => .panicked e := by
  have h1 : vsize (Value.slicev es) = lsize es + 1 := by simp [vsize]
  have hmap : es.map (fun c => marshalF (lsize es) c sz) =
      es.map (fun c => marshal c sz) := by
    apply List.map_congr_left
    intro c hc
    exact marshalF_fuel _ _ _ _ (lsize_le_of_mem hc) le_rfl
  simp only [marshal, h1, marshalF, hmap]

theorem marshal_mapv (entries : List (Value × Value)) (sz : ℚ) :
    marshal (.mapv entries) sz =
      if entries.length = 0 then .ok []
      else
        let pairs := buildKVPairs entries KVPair.empty false
        if pairs.length = 0 then .ok []
        else
          match gridCells (sz / (gridWidth pairs.length : ℚ)) (1 / (gridWidth pairs.length : ℚ))
              (gridWidth pairs.length) 0 0 (pairs.map (fun p => marshal (pairVal p) sz)) with
          | .ok cells => .ok [.group 0 0 1 cells]
          | .err e => .err e
          | .panicked e => .panicked e := by
  have hmap : (buildKVPairs entries KVPair.empty false).map
        (fun p => marshalF (psize entries + 9) (pairVal p) sz) =
      (buildKVPairs entries KVPair.empty false).map
        (fun p => marshal (pairVal p) sz) := by
    apply List.map_congr_left
    intro p hp
    have h := vsize_pairVal_lt hp
    have h1 : vsize (Value.mapv entries) = psize entries + 10 := by simp [vsize]
    rw [h1] at h
    exact marshalF_fuel _ _ _ _ (by omega) le_rfl
  have key : marshal (.mapv entries) sz =
      if entries.length = 0 then .ok []
      else
        if (buildKVPairs entries KVPair.empty false).length = 0 then .ok []
        else
          match gridCells
              (sz / (gridWidth (buildKVPairs entries KVPair.empty false).length : ℚ))
              (1 / (gridWidth (buildKVPairs entries KVPair.empty false).length : ℚ))
              (gridWidth (buildKVPairs entries KVPair.empty false).length) 0 0
              ((buildKVPairs entries KVPair.empty false).map
                (fun p => marshalF (psize entries + 9) (pairVal p) sz)) with
          | .ok cells => .ok [.group 0 0 1 cells]
          | .err e => .err e
          | .panicked e => .panicked e := rfl
  rw [key, hmap]

/-- The `x`/`y` counter step of the grid loops agrees with `mod`/`div`. -/
theorem succ_mod_div (w i : Nat) (hw : 0 < w) :
    ((i + 1) % w = if i % w + 1 = w then 0 else i % w + 1) ∧
    ((i + 1) / w = if i % w + 1 = w then i / w + 1 else i / w) := by
  have h1 : i % w < w := Nat.mod_lt _ hw
  have hdm : w * (i / w) + i % w = i := Nat.div_add_mod i w
  have hms : w * (i / w + 1) = w * (i / w) + w := Nat.mul_succ w _
  by_cases h : i % w + 1 = w
  · have he : i + 1 = w * (i / w + 1) := by omega
    refine ⟨?_, ?_⟩
    · rw [if_pos h, he]; exact Nat.mul_mod_right w _
    · rw [if_pos h, he]; exact Nat.mul_div_cancel_left _ hw
  · have hlt : i % w + 1 < w := by omega
    have he : i + 1 = w * (i / w) + (i % w + 1) := by omega
    refine ⟨?_, ?_⟩
    · rw [if_neg h, he, Nat.mul_add_mod, Nat.mod_eq_of_lt hlt]
    · rw [if_neg h, he, Nat.mul_add_div hw, Nat.div_eq_of_lt hlt, Nat.add_zero]

/-- When every child result is a success, the grid loop succeeds and places
the j-th child of `ls` at grid cell `((i+j) % w, (i+j) / w)`. -/
theorem gridCells_map_ok (cS cP : ℚ) (w : Nat) (hw : 0 < w) :
    ∀ (ls : List (List Elem)) (i : Nat),
      gridCells cS cP w (i % w) (i / w) (ls.map Outcome.ok) =
        .ok (gridSpec cS cP w i ls) := by
  intro ls
  induction ls with
  | nil => intro i; rfl
  | cons es rest ih =>
    intro i
    have hstep := succ_mod_div w i hw
    simp only [List.map_cons, gridCells, gridSpec]
    by_cases h : i % w + 1 = w
    · rw [if_pos h]
      have h0 : (i + 1) % w = 0 := by rw [hstep.1, if_pos h]
      have h1 : (i + 1) / w = i / w + 1 := by rw [hstep.2, if_pos h]
      rw [← h0, ← h1, ih (i + 1)]
    · rw [if_neg h]
      have h0 : (i + 1) % w = i % w + 1 := by rw [hstep.1, if_neg h]
      have h1 : (i + 1) / w = i / w := by rw [hstep.2, if_neg h]
      rw [← h0, ← h1, ih (i + 1)]

theorem gridSpec_length (cS cP : ℚ) (w : Nat) :
    ∀ (i : Nat) (ls : List (List Elem)), (gridSpec cS cP w i ls).length = ls.length := by
  intro i ls
  induction ls generalizing i with
  | nil => rfl
  | cons es rest ih => simp [gridSpec, ih]

theorem gridSpec_getElem? (cS cP : ℚ) (w : Nat) :
    ∀ (ls : List (List Elem)) (i j : Nat),
      (gridSpec cS cP w i ls)[j]? =
        (ls[j]?).map (fun es =>
          Elem.group (((i + j) % w : ℕ) * cS) (((i + j) / w : ℕ) * cS) cP es) := by
  intro ls
  induction ls with
  | nil => intro i j; simp [gridSpec]
  | cons es rest ih =>
    intro i j
    cases j with
    | zero => simp [gridSpec]
    | succ j =>
      simp only [gridSpec, List.getElem?_cons_succ, ih (i + 1) j]
      have : i + 1 + j = i + (j + 1) := by omega
      rw [this]

/-- `gridWidth n` really is the ceiling of the square root: the least `w`
with `n ≤ w * w`. -/
theorem gridWidth_spec (n : Nat) (hn : 1 ≤ n) :
    n ≤ gridWidth n * gridWidth n ∧ ∀ w, n ≤ w * w → gridWidth n ≤ w := by
  constructor
  · have h := Nat.lt_succ_sqrt' (n - 1)
    have h' : n - 1 < (Nat.sqrt (n - 1) + 1) * (Nat.sqrt (n - 1) + 1) := by
      simpa [Nat.succ_eq_add_one, pow_two] using h
    have hg : n ≤ (Nat.sqrt (n - 1) + 1) * (Nat.sqrt (n - 1) + 1) := by omega
    simpa [gridWidth] using hg
  · intro w hw
    by_contra hlt
    push_neg at hlt
    have hw' : w ≤ Nat.sqrt (n - 1) := by
      simp [gridWidth] at hlt; omega
    have hmul : w * w ≤ Nat.sqrt (n - 1) * Nat.sqrt (n - 1) := Nat.mul_le_mul hw' hw'
    have h2 : Nat.sqrt (n - 1) * Nat.sqrt (n - 1) ≤ n - 1 := by
      simpa [pow_two] using Nat.sqrt_le' (n - 1)
    have : n ≤ n - 1 := le_trans hw (le_trans hmul h2)
    omega

theorem gridWidth_pos (n : Nat) : 0 < gridWidth n := Nat.succ_pos _

theorem marshal_eq_ok {v : Value} {sz : ℚ} (h : (marshal v sz).isOk = true) :
    marshal v sz = .ok (childElems v sz) := by
  unfold childElems
  cases hm : marshal v sz <;> simp [hm, Outcome.isOk] at h ⊢

theorem map_marshal_ok {vs : List Value} {sz : ℚ}
    (h : ∀ v ∈ vs, (marshal v sz).isOk = true) :
    vs.map (fun v => marshal v sz) =
      (vs.map (fun v => childElems v sz)).map Outcome.ok := by
  rw [List.map_map]
  exact List.map_congr_left fun v hv => marshal_eq_ok (h v hv)

/-- Successful sequence encoding in closed form: one outer group holding one
translated-and-scaled group per element, in index order. -/
theorem marshal_slicev_ok (es : List Value) (sz : ℚ) (hne : es ≠ [])
    (hok : ∀ v ∈ es, (marshal v sz).isOk = true) :
    marshal (.slicev es) sz =
      .ok [.group 0 0 1 (gridSpec (sz / (gridWidth es.length : ℚ))
        (1 / (gridWidth es.length : ℚ)) (gridWidth es.length) 0
        (es.map (fun v => childElems v sz)))] := by
  rw [marshal_slicev, if_neg (by simpa using hne), map_marshal_ok hok]
  have h0 : gridCells (sz / (gridWidth es.length : ℚ)) (1 / (gridWidth es.length : ℚ))
      (gridWidth es.length) 0 0 ((es.map (fun v => childElems v sz)).map Outcome.ok) =
      .ok (gridSpec (sz / (gridWidth es.length : ℚ)) (1 / (gridWidth es.length : ℚ))
        (gridWidth es.length) 0 (es.map (fun v => childElems v sz))) := by
    have := gridCells_map_ok (sz / (gridWidth es.length : ℚ))
      (1 / (gridWidth es.length : ℚ)) (gridWidth es.length) (gridWidth_pos _)
      (es.map (fun v => childElems v sz)) 0
    simpa using this
  rw [h0]

/-- Successful record encoding in closed form: all declared fields, exported
or not, in declaration order. -/
theorem marshal_structv_ok (fs : List (Bool × Value)) (sz : ℚ) (hne : fs ≠ [])
    (hok : ∀ f ∈ fs, (marshal f.2 sz).isOk = true) :
    marshal (.structv fs) sz =
      .ok [.group 0 0 1 (gridSpec (sz / (gridWidth fs.length : ℚ))
        (1 / (gridWidth fs.length : ℚ)) (gridWidth fs.length) 0
        (fs.map (fun f => childElems f.2 sz)))] := by
  rw [marshal_structv, if_neg (by simpa using hne)]
  have hmap : fs.map (fun f => marshal f.2 sz) =
      (fs.map (fun f => childElems f.2 sz)).map Outcome.ok := by
    rw [List.map_map]
    exact List.map_congr_left fun f hf => marshal_eq_ok (hok f hf)
  rw [hmap]
  have h0 := gridCells_map_ok (sz / (gridWidth fs.length : ℚ))
    (1 / (gridWidth fs.length : ℚ)) (gridWidth fs.length) (gridWidth_pos _)
    (fs.map (fun f => childElems f.2 sz)) 0
  simp only [Nat.zero_mod, Nat.zero_div] at h0
  rw [h0]

theorem loopVals_eight (sz : ℚ) (h : 0 < sz) :
    loopVals sz (sz / 8) 8 =
      (List.range 7).map (fun j : ℕ => sz - ((j : ℚ) + 1) * (sz / 8)) := by
  have h1 : (0:ℚ) < sz - 1 * (sz / 8) := by linarith
  have h2 : (0:ℚ) < sz - 2 * (sz / 8) := by linarith
  have h3 : (0:ℚ) < sz - 3 * (sz / 8) := by linarith
  have h4 : (0:ℚ) < sz - 4 * (sz / 8) := by linarith
  have h5 : (0:ℚ) < sz - 5 * (sz / 8) := by linarith
  have h6 : (0:ℚ) < sz - 6 * (sz / 8) := by linarith
  have h7 : (0:ℚ) < sz - 7 * (sz / 8) := by linarith
  have h8 : ¬ ((0:ℚ) < sz - 8 * (sz / 8)) := by
    have : sz - 8 * (sz / 8) = 0 := by ring
    rw [this]
    exact lt_irrefl 0
  rw [loopVals]
  norm_num [List.range_succ, List.takeWhile_cons, h1, h2, h3, h4, h5, h6, h7, h8]
  intro hc
  exact absurd hc (by linarith)

/-- `bitCells` without the early exit: the exit only skips cells none of
which would be drawn. -/
def bitSpec {α : Type} : List α → Nat → List α
  | [], _ => []
  | c :: rest, val => (if val % 2 = 1 then [c] else []) ++ bitSpec rest (val / 2)

theorem bitSpec_zero {α : Type} : ∀ ys : List α, bitSpec ys 0 = [] := by
  intro ys
  induction ys with
  | nil => rfl
  | cons c rest ih => simp [bitSpec, ih]

theorem bitCells_eq_bitSpec {α : Type} : ∀ (ys : List α) (val : Nat),
    bitCells ys val = bitSpec ys val := by
  intro ys
  induction ys with
  | nil => intro val; rfl
  | cons c rest ih =>
    intro val
    simp only [bitCells, bitSpec]
    by_cases h : val / 2 = 0
    · rw [if_pos h, h, bitSpec_zero, List.append_nil]
    · rw [if_neg h, ih]

theorem bitSpec_eq_filterMap {α : Type} : ∀ (ys : List α) (val : Nat),
    bitSpec ys val = (List.range ys.length).filterMap
      (fun k => if val.testBit k then ys[k]? else none) := by
  intro ys
  induction ys with
  | nil => intro val; rfl
  | cons c rest ih =>
    intro val
    simp only [bitSpec, List.length_cons, List.range_succ_eq_map, List.filterMap_cons,
      List.filterMap_map]
    rw [ih (val / 2)]
    have h0 : val.testBit 0 = decide (val % 2 = 1) := Nat.testBit_zero val
    have hcong : (List.range rest.length).filterMap
          ((fun k => if val.testBit k then (c :: rest)[k]? else none) ∘ Nat.succ) =
        (List.range rest.length).filterMap
          (fun k => if (val / 2).testBit k then rest[k]? else none) := by
      apply List.filterMap_congr
      intro k hk
      simp only [Function.comp_apply, List.getElem?_cons_succ]
      rw [Nat.testBit_succ]
    rw [hcong]
    by_cases h : val % 2 = 1
    · rw [if_pos h]
      have : val.testBit 0 = true := by rw [h0]; simp [h]
      simp [this]
    · rw [if_neg h]
      have : val.testBit 0 = false := by rw [h0]; simp [h]
      simp [this]

/-- Closed form of the bars actually drawn by `byteEncoder`: one black bar
per set bit among bits 0 .. 6 only (bit 7 is never reached), the bar for bit
`k` sitting `k+1` rows above the bottom edge, so the bars run bottom-to-top
from least to most significant. -/
def byteBars (sz : ℚ) (val : Nat) : List Elem :=
  (List.range 7).filterMap (fun k =>
    if val.testBit k then
      some (.rect (sz / 8 * (1 / 5 / 2))
        (sz - ((k : ℚ) + 1) * (sz / 8) - sz / 8 * (1 / 5 / 2))
        (sz - sz / 8 * (1 / 5 / 2)) (sz / 8 * (1 - 1 / 5)) "black")
    else none)

theorem byteEncoder_eq_byteBars (sz : ℚ) (val : Nat) (h : 0 < sz) :
    byteEncoder sz val = byteBars sz val := by
  rw [byteEncoder, bitCells_eq_bitSpec, bitSpec_eq_filterMap, loopVals_eight sz h]
  rw [List.map_filterMap, byteBars]
  simp only [List.length_map, List.length_range]
  apply List.filterMap_congr
  intro k hk
  have hk7 : k < 7 := List.mem_range.mp hk
  have hget : ((List.range 7).map (fun j : ℕ => sz - ((j : ℚ) + 1) * (sz / 8)))[k]? =
      some (sz - ((k : ℚ) + 1) * (sz / 8)) := by
    rw [List.getElem?_map, List.getElem?_range hk7, Option.map_some']
  by_cases hb : val.testBit k
  · simp only [hb, if_true, hget, Option.map_some']
  · simp only [hb, Bool.false_eq_true, if_false, Option.map_none']

/-- The scalar shape categories of the spec's leaf table: signed integers,
unsigned bytes, floating point, booleans, text. -/
def isScalar : Value → Bool
  | .intv _ _ => true
  | .bytev _ => true
  | .floatv _ => true
  | .boolv _ => true
  | .strv _ => true
  | _ => false

theorem marshal_slicev_isOk (es : List Value) (sz : ℚ)
    (h : ∀ v ∈ es, (marshal v sz).isOk = true) :
    (marshal (.slicev es) sz).isOk = true := by
  rcases eq_or_ne es [] with rfl | hne
  · rfl
  · rw [marshal_slicev_ok es sz hne h]; rfl

theorem marshal_scalar_isOk (v : Value) (sz : ℚ) (h : isScalar v = true) :
    (marshal v sz).isOk = true := by
  cases v with
  | intv w n => rfl
  | bytev n => rfl
  | floatv q => rfl
  | boolv b => rfl
  | strv s =>
    rw [marshal_strv]
    apply marshal_slicev_isOk
    intro v hv
    obtain ⟨b, _, rfl⟩ := List.mem_map.mp hv
    rfl
  | invalid => exact absurd h (by simp [isScalar])
  | uintv w n => exact absurd h (by simp [isScalar])
  | structv fs => exact absurd h (by simp [isScalar])
  | slicev es => exact absurd h (by simp [isScalar])
  | mapv es => exact absurd h (by simp [isScalar])
  | ifacev x => exact absurd h (by simp [isScalar])
  | ptrv x => exact absurd h (by simp [isScalar])
  | funcv => exact absurd h (by simp [isScalar])
  | chanv => exact absurd h (by simp [isScalar])

theorem render_length_ne (d : SVGDoc) : (render d).length ≠ 0 := by
  rw [render]
  have h1 : ("<svg width=" : String).length = 11 := rfl
  simp [String.length_append, h1]

/-- C1: the claim says an invalid value makes the Walker return an
`InvalidValue` error, that every error is propagated unmodified, and that
the walker never terminates abnormally in any other way.  The propagation
part holds (sampled here at depth 1 and depth 2), but the invalid-value
part is a code bug: `valueEncoder` executes `panic(InvalidValueError)` — its
`return nil, InvalidValueError` on the next line is unreachable — so e.g.
`Marshal(nil, 100)` (whose `reflect.ValueOf` is the invalid Value) aborts by
panic instead of returning the error. -/
theorem spec_c1_invalid_panics :
    valueEncoder .invalid = .panicked .invalidValue ∧
    Marshal .invalid 100 = .panicked .invalidValue ∧
    (∀ sz : ℚ, marshal (.structv [(true, .funcv)]) sz = .err (.unsupportedType .kFunc)) ∧
    (∀ sz : ℚ, marshal (.slicev [.ptrv .funcv]) sz = .err (.unsupportedType .kFunc)) := by
  refine ⟨rfl, ?_, fun _ => rfl, fun _ => rfl⟩
  rw [Marshal, if_neg (by norm_num : ¬ (100:ℚ) ≤ 0)]
  rfl

/-- C2: the claim says a mapping with `k` entries folds into exactly
`ceil(k/2)` synthetic paired records.  The code's post-loop flush tests
`if !isOdd` — inverted relative to its own capacity hint
`make(..., (len(keys)+1)/2)` — so a 1-entry map produces 0 records (and
draws nothing), a 2-entry map produces 2 records (the last pair twice), and
a 3-entry map produces 1 record (the third entry is dropped).  Only the
empty-map conjunct of the claim holds. -/
theorem spec_c2_map_pairing_eval :
    (buildKVPairs [(.intv .i 1, .boolv true)] KVPair.empty false).length = 0 ∧
    marshal (.mapv [(.intv .i 1, .boolv true)]) 8 = .ok [] ∧
    (buildKVPairs [(.intv .i 1, .boolv true), (.intv .i 2, .boolv false)]
      KVPair.empty false).length = 2 ∧
    (buildKVPairs [(.intv .i 1, .boolv true), (.intv .i 2, .boolv false),
      (.intv .i 3, .boolv true)] KVPair.empty false).length = 1 ∧
    marshal (.mapv []) 8 = .ok [] :=
  ⟨rfl, rfl, rfl, rfl, rfl⟩

/-- C3: the claim (and the code's own comment) says ints render as an 8x8
bit matrix with the most-significant bit at the top-left cell.  The loop
conditions `y > 0` / `x > 0` exclude the coordinate-0 row and column, so
only a 7x7 sub-grid is ever visited: bit 7 of 128 lands in the rightmost
cell of the second-to-bottom row (x = 141/20 after the margin inset) instead
of the bottom-left cell (x = 1/20) demanded by an 8x8 row-major layout, and
2^49 (= 562949953421312) draws nothing at all because only 49 cells exist.
The claim's small examples (5, -5, 0) do hold. -/
theorem spec_c3_matrix_eval :
    intEncoder 8 128 = [.rect (141/20) (119/20) (9/10) (9/10) "black"] ∧
    intEncoder 8 562949953421312 = [] ∧
    intEncoder 8 5 = [.rect (141/20) (139/20) (9/10) (9/10) "black",
      .rect (101/20) (139/20) (9/10) (9/10) "black"] ∧
    intEncoder 8 (-5) = [.rect (141/20) (139/20) (9/10) (9/10) "red",
      .rect (101/20) (139/20) (9/10) (9/10) "red"] ∧
    intEncoder 8 0 = [] := by
  have t128 : (128:ℤ).toNat = 128 := rfl
  have t49 : (562949953421312:ℤ).toNat = 562949953421312 := rfl
  have t5 : (5:ℤ).toNat = 5 := rfl
  have t0 : (0:ℤ).toNat = 0 := rfl
  refine ⟨?_, ?_, ?_, ?_, ?_⟩ <;>
    norm_num [intEncoder, intGrid, loopVals, bitCells, List.takeWhile, List.range_succ,
      t128, t49, t5, t0]

/-- C4, counterexample: a struct whose only field is unexported.  The claim
says unexported fields are skipped, so this record would have 0 children and
draw nothing; `structEncoder` iterates `t.NumField()` fields without any
exportedness check and renders the field. -/
theorem spec_c4_cex :
    marshal (.structv [(false, .intv .i 5)]) 8 =
      .ok [.group 0 0 1 [.group 0 0 1 (intEncoder 8 5)]] ∧
    marshal (.structv [(false, .intv .i 5)]) 8 ≠ .ok [] := by
  constructor
  · rw [marshal_structv_ok [(false, .intv .i 5)] 8 (by simp) (by intro f hf; fin_cases hf <;> rfl)]
    have hw : gridWidth 1 = 1 := rfl
    have hchild : childElems (Value.intv .i 5) 8 = intEncoder 8 5 := rfl
    norm_num [hw, gridSpec, hchild]
  · rw [marshal_structv_ok [(false, .intv .i 5)] 8 (by simp) (by intro f hf; fin_cases hf <;> rfl)]
    simp [gridSpec]

/-- C4, amended: the record encoder renders every declared field — exported
or unexported — in declaration order, and the grid child count equals the
total number of declared fields (the code never consults exportedness). -/
theorem spec_c4_all_fields (fs : List (Bool × Value)) (sz : ℚ) (hne : fs ≠ [])
    (hok : ∀ f ∈ fs, (marshal f.2 sz).isOk = true) :
    marshal (.structv fs) sz =
      .ok [.group 0 0 1 (gridSpec (sz / (gridWidth fs.length : ℚ))
        (1 / (gridWidth fs.length : ℚ)) (gridWidth fs.length) 0
        (fs.map (fun f => childElems f.2 sz)))] ∧
    (gridSpec (sz / (gridWidth fs.length : ℚ)) (1 / (gridWidth fs.length : ℚ))
      (gridWidth fs.length) 0 (fs.map (fun f => childElems f.2 sz))).length = fs.length := by
  refine ⟨marshal_structv_ok fs sz hne hok, ?_⟩
  rw [gridSpec_length, List.length_map]

theorem spec_c4_all_fields_witness :
    marshal (.structv [(true, .boolv true), (false, .intv .i 0)]) 8 =
      .ok [.group 0 0 1 (gridSpec (8 / (gridWidth 2 : ℚ)) (1 / (gridWidth 2 : ℚ))
        (gridWidth 2) 0 ([(true, Value.boolv true), (false, Value.intv .i 0)].map
          (fun f => childElems f.2 8)))] ∧
    (gridSpec (8 / (gridWidth 2 : ℚ)) (1 / (gridWidth 2 : ℚ)) (gridWidth 2) 0
      ([(true, Value.boolv true), (false, Value.intv .i 0)].map
        (fun f => childElems f.2 8))).length = 2 :=
  spec_c4_all_fields [(true, .boolv true), (false, .intv .i 0)] 8 (by simp)
    (by intro f hf; fin_cases hf <;> rfl)

/-- C5, counterexample: the claim says up to 8 bars, one per set bit, least
to most significant running top-to-bottom.  The code draws at most 7 bars —
128 (only bit 7 set) draws nothing — and the bar for bit 0 of the value 3
sits at y = 69/10, BELOW the bar for bit 1 at y = 59/10 (SVG y grows
downward), i.e. the bars run bottom-to-top. -/
theorem spec_c5_cex :
    byteEncoder 8 128 = [] ∧
    byteEncoder 8 3 = [.rect (1/10) (69/10) (79/10) (4/5) "black",
      .rect (1/10) (59/10) (79/10) (4/5) "black"] := by
  constructor
  · rw [byteEncoder_eq_byteBars 8 128 (by norm_num)]
    norm_num [byteBars, List.range_succ, List.filterMap_cons, Nat.testBit_succ,
      Nat.testBit_zero]
  · rw [byteEncoder_eq_byteBars 8 3 (by norm_num)]
    norm_num [byteBars, List.range_succ, List.filterMap_cons, Nat.testBit_succ,
      Nat.testBit_zero]

/-- C5, amended: the encoder renders up to 7 stacked horizontal bars, one
per set bit among bits 0..6 ordered from least to most significant running
bottom-to-top (the loop condition `y > 0` excludes the top row, so bit 7 is
never drawn); a black bar inset by a margin is drawn only for set bits, and
drawing stops once the remaining value is zero. -/
theorem spec_c5_bars :
    (∀ (sz : ℚ) (val : Nat), 0 < sz → byteEncoder sz val = byteBars sz val) ∧
    (∀ sz : ℚ, 0 < sz → byteEncoder sz 128 = []) := by
  refine ⟨fun sz val h => byteEncoder_eq_byteBars sz val h, fun sz h => ?_⟩
  rw [byteEncoder_eq_byteBars sz 128 h]
  norm_num [byteBars, List.range_succ, List.filterMap_cons, Nat.testBit_succ,
    Nat.testBit_zero]

theorem spec_c5_bars_witness :
    byteEncoder 8 5 = byteBars 8 5 ∧ byteEncoder 8 128 = [] :=
  ⟨spec_c5_bars.1 8 5 (by norm_num), spec_c5_bars.2 8 (by norm_num)⟩

/-- C6, counterexample: the claim says black fill for v ≥ 0.  The sign test
in the code is `val <= 0`, so encoding 0 emits a circle element (radius 0)
with RED fill and stroke, not black. -/
theorem spec_c6_cex : floatEncoder 8 0 = [.circle 4 4 0 "red"] := by
  norm_num [floatEncoder]

/-- C6, amended: for a positive region side the encoder draws exactly one
circle centered in the region with radius `|v| * (side / 2)` (no clamping),
with red fill for v ≤ 0 — including v = 0, where a radius-0 red circle is
emitted — and black fill only for v > 0. -/
theorem spec_c6_circle (sz v : ℚ) (h : 0 < sz) :
    floatEncoder sz v =
      [.circle (sz / 2) (sz / 2) (|v| * (sz / 2)) (if v ≤ 0 then "red" else "black")] := by
  rw [floatEncoder]
  by_cases hv : v ≤ 0
  · have hval : v * (sz / 2) ≤ 0 := by nlinarith
    rw [if_pos hval, if_pos hval, if_pos hv, abs_of_nonpos hv]
    ring_nf
  · push_neg at hv
    have hval : ¬ (v * (sz / 2) ≤ 0) := by
      push_neg
      have h2 : (0:ℚ) < sz / 2 := by linarith
      positivity
    rw [if_neg hval, if_neg hval, if_neg (not_le.mpr hv), abs_of_pos hv]

theorem spec_c6_circle_witness :
    floatEncoder 8 (-1/2) = [.circle 4 4 2 "red"] := by
  rw [spec_c6_circle 8 (-1/2) (by norm_num)]
  norm_num
  rw [abs_of_pos (by norm_num : (0:ℚ) < 1/2)]
  norm_num

/-- C7, counterexample: the claim says an UNSET indirection (pointer or
interface) draws nothing and returns success.  True for nil pointers, but
`ifaceEncoder` has no nil check: `v.Elem()` of a nil interface is the
invalid Value, so the walker hits the `panic(InvalidValueError)` — also when
the nil interface sits inside a struct field. -/
theorem spec_c7_cex :
    marshal (.ifacev .invalid) 8 = .panicked .invalidValue ∧
    marshal (.structv [(true, .ifacev .invalid)]) 8 = .panicked .invalidValue :=
  ⟨rfl, rfl⟩

/-- C7, amended: a nil pointer draws nothing and returns success; a set
pointer, and any non-empty interface, unwraps one level and re-invokes the
walker on the contained value in the same canvas region, so the result is
identical to encoding the contained value directly; an EMPTY interface does
not return success — the walker panics with `InvalidValue`. -/
theorem spec_c7_indirection :
    (∀ sz : ℚ, marshal (.ptrv .invalid) sz = .ok []) ∧
    (∀ (x : Value) (sz : ℚ), x ≠ .invalid → marshal (.ptrv x) sz = marshal x sz) ∧
    (∀ (x : Value) (sz : ℚ), marshal (.ifacev x) sz = marshal x sz) ∧
    (∀ sz : ℚ, marshal (.ifacev .invalid) sz = .panicked .invalidValue) :=
  ⟨fun sz => marshal_ptr_nil sz, fun x sz hx => marshal_ptrv hx sz,
    fun x sz => marshal_ifacev x sz, fun _ => rfl⟩

theorem spec_c7_indirection_witness :
    marshal (.ptrv (.boolv true)) 8 = marshal (.boolv true) 8 :=
  spec_c7_indirection.2.1 (.boolv true) 8 (fun h => Value.noConfusion h)

/-- C8: the shared grid layout.  `gridWidth n` is the least `w` with
`n ≤ w*w` (that is, `ceil(sqrt n)`); for a non-empty sequence or record
whose children all encode successfully, the encoder emits one outer group
holding, for child `i` (zero-based, in order), a group translated by
`(i mod w * C, i div w * C)` with `C = S / w`, scaled by `1/w`; the child is
encoded at the parent's unchanged nominal size inside that group, and
`1/w = C/S`.  Empty composites draw nothing and return success. -/
theorem spec_c8_grid :
    (∀ n : ℕ, 1 ≤ n → n ≤ gridWidth n * gridWidth n ∧
      ∀ w, n ≤ w * w → gridWidth n ≤ w) ∧
    (∀ (es : List Value) (sz : ℚ), es ≠ [] →
      (∀ v ∈ es, (marshal v sz).isOk = true) →
      marshal (.slicev es) sz =
        .ok [.group 0 0 1 (gridSpec (sz / (gridWidth es.length : ℚ))
          (1 / (gridWidth es.length : ℚ)) (gridWidth es.length) 0
          (es.map (fun v => childElems v sz)))]) ∧
    (∀ (fs : List (Bool × Value)) (sz : ℚ), fs ≠ [] →
      (∀ f ∈ fs, (marshal f.2 sz).isOk = true) →
      marshal (.structv fs) sz =
        .ok [.group 0 0 1 (gridSpec (sz / (gridWidth fs.length : ℚ))
          (1 / (gridWidth fs.length : ℚ)) (gridWidth fs.length) 0
          (fs.map (fun f => childElems f.2 sz)))]) ∧
    (∀ (cS cP : ℚ) (w : Nat) (ls : List (List Elem)) (j : Nat),
      (gridSpec cS cP w 0 ls).length = ls.length ∧
      (gridSpec cS cP w 0 ls)[j]? = (ls[j]?).map (fun es =>
        Elem.group ((j % w : ℕ) * cS) ((j / w : ℕ) * cS) cP es)) ∧
    (∀ sz : ℚ, marshal (.slicev []) sz = .ok [] ∧ marshal (.structv []) sz = .ok []) ∧
    (∀ (sz : ℚ) (w : ℕ), 0 < sz → 0 < w → (1 : ℚ) / (w : ℚ) = (sz / (w : ℚ)) / sz) := by
  refine ⟨gridWidth_spec, marshal_slicev_ok, marshal_structv_ok, ?_, ?_, ?_⟩
  · intro cS cP w ls j
    refine ⟨gridSpec_length cS cP w 0 ls, ?_⟩
    have := gridSpec_getElem? cS cP w ls 0 j
    simpa using this
  · intro sz; exact ⟨rfl, rfl⟩
  · intro sz w hsz hw
    have hw' : (w : ℚ) ≠ 0 := Nat.cast_ne_zero.mpr (by omega)
    field_simp

theorem spec_c8_grid_witness :
    (marshal (.slicev [.floatv 1, .floatv 1, .floatv 1]) 8 =
      .ok [.group 0 0 1 (gridSpec (8 / (gridWidth 3 : ℚ)) (1 / (gridWidth 3 : ℚ))
        (gridWidth 3) 0 ([Value.floatv 1, .floatv 1, .floatv 1].map
          (fun v => childElems v 8)))]) ∧
    (3 ≤ gridWidth 3 * gridWidth 3 ∧ ∀ w, 3 ≤ w * w → gridWidth 3 ≤ w) :=
  ⟨spec_c8_grid.2.1 [.floatv 1, .floatv 1, .floatv 1] 8 (by simp)
      (by intro v hv; fin_cases hv <;> rfl),
    spec_c8_grid.1 3 (by norm_num)⟩

/-- C9: `Marshal` rejects every non-positive size with the invalid-size
error before any encoding; for every positive size and every supported
scalar input it succeeds with a non-empty document; an error return carries
no bytes. -/
theorem spec_c9_size_gate :
    (∀ (v : Value) (size : ℚ), size ≤ 0 → Marshal v size = .err .invalidSize) ∧
    (∀ (v : Value) (size : ℚ), 0 < size → isScalar v = true →
      ∃ s, Marshal v size = .ok s ∧ s.length ≠ 0) ∧
    (∀ (v : Value) (size : ℚ) (e : EncError) (s : String),
      Marshal v size = .err e → Marshal v size ≠ .ok s) := by
  refine ⟨?_, ?_, ?_⟩
  · intro v size h
    rw [Marshal, if_pos h]
  · intro v size h hs
    rw [Marshal, if_neg (not_le.mpr h)]
    rw [marshal_eq_ok (marshal_scalar_isOk v size hs)]
    exact ⟨_, rfl, render_length_ne _⟩
  · intro v size e s he
    rw [he]
    exact fun h => Outcome.noConfusion h

theorem spec_c9_size_gate_witness :
    Marshal (.intv .i 5) 0 = .err .invalidSize ∧
    (∃ s, Marshal (.floatv 1) 8 = .ok s ∧ s.length ≠ 0) :=
  ⟨spec_c9_size_gate.1 (.intv .i 5) 0 (by norm_num),
    spec_c9_size_gate.2.1 (.floatv 1) 8 (by norm_num) rfl⟩

/-- C10: every unsigned integer kind other than `uint8` (uint, uint16,
uint32, uint64, uintptr) is absent from the `newTypeEncoder` switch and
resolves to `UnsupportedTypeError` carrying the offending kind, while every
signed kind and `uint8` resolve to their encoders. -/
theorem spec_c10_unsigned_kinds :
    newTypeEncoder .kUint = .error (.unsupportedType .kUint) ∧
    newTypeEncoder .kUint16 = .error (.unsupportedType .kUint16) ∧
    newTypeEncoder .kUint32 = .error (.unsupportedType .kUint32) ∧
    newTypeEncoder .kUint64 = .error (.unsupportedType .kUint64) ∧
    newTypeEncoder .kUintptr = .error (.unsupportedType .kUintptr) ∧
    newTypeEncoder .kUint8 = .ok .byteEnc ∧
    newTypeEncoder .kInt = .ok .intEnc ∧
    newTypeEncoder .kInt8 = .ok .intEnc ∧
    newTypeEncoder .kInt16 = .ok .intEnc ∧
    newTypeEncoder .kInt32 = .ok .intEnc ∧
    newTypeEncoder .kInt64 = .ok .intEnc ∧
    (∀ (w : UKind) (n : Nat), valueEncoder (.uintv w n) = .err (.unsupportedType w.kind)) ∧
    (∀ (w : SKind) (n : Int), valueEncoder (.intv w n) = .ok .intEnc) ∧
    (∀ n : Nat, valueEncoder (.bytev n) = .ok .byteEnc) := by
  refine ⟨rfl, rfl, rfl, rfl, rfl, rfl, rfl, rfl, rfl, rfl, rfl, ?_, ?_, fun n => rfl⟩
  · intro w n; cases w <;> rfl
  · intro w n; cases w <;> rfl

end Kandinsky
